import Mathlib

/-!
Shallow embedding of `crank/feature/feature.py` (the `Feature` class and the
`itug_729_window` function) over the reals.

Conventions of the embedding:
* numpy arrays are `List ℝ` (1-D) and `List (List ℝ)` (2-D, row-major:
  frame-indexed rows);
* the Python `self.feats` dict is an association list with dict-assignment
  semantics (`dictSet` replaces in place or appends, preserving insertion
  order);
* third-party collaborators (soundfile, librosa, sprocket's WORLD analyzer
  and synthesizer, `crank.utils`) are an oracle record `Extern`; fallible
  external calls return `Except String`;
* externally visible effects (invoking the WORLD analyzer, writing the HDF5
  container, writing wav files) are recorded as an `Event` trace;
* Python exceptions (`assert`, `KeyError`, an unbound local) are `.error`
  values, and an uncaught exception is a propagated `.error`; the source has
  no `try`/`except`.
-/

noncomputable section

open Real

abbrev Arr := List ℝ

abbrev Mat := List (List ℝ)

/-- Value stored under one key of the feature dict: a 1-D or a 2-D array. -/
inductive FeatVal
  | a1 (x : Arr)
  | a2 (x : Mat)

abbrev Feats := List (String × FeatVal)

/-- Python dict assignment `d[k] = v`: replace the value in place if the key
exists, otherwise append the new pair at the end (insertion order). -/
def dictSet {α : Type} : List (String × α) → String → α → List (String × α)
  | [], k, v => [(k, v)]
  | (k', v') :: rest, k, v =>
    if k' = k then (k, v) :: rest else (k', v') :: dictSet rest k v

/-- Python dict lookup `d[k]` (as an `Option`; `none` models a `KeyError`). -/
def dictGet {α : Type} : List (String × α) → String → Option α
  | [], _ => none
  | (k', v) :: rest, k => if k' = k then some v else dictGet rest k

/-- The module constant `EPS = 1e-10`. -/
def EPS : ℝ := 1 / 10 ^ 10

/-- Inner helper `cos_win` of `itug_729_window`:
`np.cos((2 * np.pi * x) / (2 * length / 3 - 1))` (real division). -/
def cos_win (x length : ℝ) : ℝ :=
  Real.cos (2 * Real.pi * x / (2 * length / 3 - 1))

/-- Inner helper `hamming_win` of `itug_729_window`:
`0.54 - 0.46 * np.cos((2 * np.pi * (x - length / 6)) / (5 * length / 3 - 1))`. -/
def hamming_win (x length : ℝ) : ℝ :=
  0.54 - 0.46 * Real.cos (2 * Real.pi * (x - length / 6) / (5 * length / 3 - 1))

/-- The ITU-G.729 window.  With `s = length // 6` (integer division), the
source fills the last `s` slots with `cos_win(arange(length)[:s])`, i.e.
`cos_win i` for `i = 0..s-1`, and the first `length - s` slots with
`hamming_win(arange(length)[s:])`, i.e. `hamming_win (s + j)` for slot
`j = 0..length-s-1`.  (For `0 < length < 6` the Python negative-slice
assignment `win[-0:]` would raise a shape-mismatch error; the claims only
concern `length ≥ 6`.) -/
def itug_729_window (length : Nat) : List ℝ :=
  ((List.range (length - length / 6)).map
    (fun j => hamming_win ((length / 6 + j : ℕ) : ℝ) (length : ℝ))) ++
  ((List.range (length / 6)).map (fun i => cos_win ((i : ℕ) : ℝ) (length : ℝ)))

/-- Global analysis configuration (the `conf` dict keys the source reads). -/
structure Conf where
  fs : Nat
  fftl : Nat
  shiftms : ℝ
  hop_size : Nat
  mcep_dim : Nat
  mcep_alpha : ℝ
  mlfb_dim : Nat
  fmin : Option Nat
  fmax : Option Nat
  window_types : List String

/-- Per-speaker configuration (`spkr_conf` keys the source reads). -/
structure SpkrConf where
  minf0 : ℝ
  maxf0 : ℝ
  npow : ℝ

/-- Externally visible effects of one `analyze` call. -/
inductive Event
  | analyzerCall (x : Arr)
  | writeH5 (path : String) (f : Feats)
  | writeWav (path : String) (x : Arr)
  | writeGl (path : String)

/-- Oracle record for the third-party collaborators.  `sfRead` is
`soundfile.read` (samples, sample rate); `lowCutFilter` is
`crank.utils.low_cut_filter(x, fs, cutoff)`; `worldAnalyze` is
`sprocket FeatureExtractor(...).analyze(x)` returning `(f0, spc, ap)`;
`convertContinuosF0` is `crank.utils.convert_continuos_f0` returning
`(uv, cf0)`; `mcepF`/`npowF`/`codeapF` are the extractor's `mcep`, `npow`,
`codeap`; `synthesisF` is `sprocket Synthesizer(...).synthesis` (fallible);
`stftMag` is `np.abs(librosa.stft(x, n_fft, hop_length, ...window)).T`;
`melBasisF` is `librosa.filters.mel(fs, fftl, n_mels, fmin, fmax)`;
`mlfb2wavfF` is the Griffin-Lim reconstruction-and-write
`crank.utils.mlfb2wavf` (fallible); `hann`/`hamming` are the scipy windows;
`stem` is `pathlib.Path(...).stem`. -/
structure Extern where
  sfRead : String → Arr × Nat
  stem : String → String
  lowCutFilter : Arr → Nat → Nat → Arr
  worldAnalyze : Nat → Nat → ℝ → ℝ → ℝ → Arr → Arr × Mat × Mat
  convertContinuosF0 : Arr → Arr × Arr
  mcepF : Arr → Nat → ℝ → Mat
  npowF : Arr → Arr
  codeapF : Arr → Mat
  synthesisF : Nat → Nat → ℝ → Arr → Mat → Mat → ℝ → Except String Arr
  stftMag : Nat → Nat → Arr → Arr → Mat
  melBasisF : Nat → Nat → Nat → Nat → Nat → Mat
  mlfb2wavfF : FeatVal → String → Except String Unit
  hann : Nat → Arr
  hamming : Nat → Arr

/-- Dot product of two rows (`np.dot` on 1-D slices). -/
def dotL (a b : Arr) : ℝ := (List.zipWith (· * ·) a b).sum

/-- Row-major `np.dot(A, B.T)`: entry `(i, j)` is `dot(A[i], B[j])`. -/
def matMulT (A B : Mat) : Mat := A.map (fun r => B.map (fun c => dotL r c))

/-- The mel-filterbank value computation of `_analyze_mlfb`:
`np.log10(np.maximum(EPS, np.dot(spc, mel_basis.T)))`. -/
def mlfbTransform (spc melB : Mat) : Mat :=
  (matMulT spc melB).map (List.map (fun m => Real.logb 10 (max EPS m)))

/-- Elementwise `np.clip(v, -1.0, 1.0)`. -/
def clip1 (v : ℝ) : ℝ := min 1 (max (-1) v)

/-- The complete mel filterbank `_analyze_mlfb` derives for one window
from the samples `x` at sample rate `fs`: magnitude short-time spectrum,
mel projection (with the configured or default `fmin`/`fmax` bounds) and
the clamped `log10`. -/
def mlfbMat (ext : Extern) (conf : Conf) (fs : Nat) (win : Arr) (x : Arr) : Mat :=
  mlfbTransform (ext.stftMag conf.fftl conf.hop_size win x)
    (ext.melBasisF fs conf.fftl conf.mlfb_dim (conf.fmin.getD 0)
      (conf.fmax.getD (fs / 2)))

/-- Per-frame energy of `_analyze_mlfb`:
`np.log(np.sqrt(np.clip(np.sum(spc ** 2, axis=1), EPS, 1 / EPS)))`. -/
def energyOf (spc : Mat) : Arr :=
  spc.map (fun row =>
    Real.log (Real.sqrt (min (1 / EPS) (max EPS ((row.map (fun v => v ^ 2)).sum)))))

/-- The `energy_uv` computation: `np.zeros_like(energy)` followed by
`energy_uv[: len(npow)] += (npow > threshold)` (booleans become 0/1 floats;
the source assumes `len(npow) ≤ len(energy)`, otherwise numpy raises). -/
def energyUv (energy npow : Arr) (thr : ℝ) : Arr :=
  (List.range energy.length).map (fun i =>
    match npow.get? i with
    | some p => if thr < p then (1 : ℝ) else 0
    | none => 0)

/-- Python `max(column)` (the source only applies it to nonempty bands;
`max` of an empty sequence would raise). -/
def maxList (c : Arr) : ℝ := c.foldl max (c.headD 0)

open scoped Classical in
/-- The per-band outlier zeroing
`cap[np.where(cap[:, d] == max(cap[:, d])), d] = 0.0`: every frame tied for
the band maximum is set to zero. -/
def zeroMaxCol (c : Arr) : Arr :=
  c.map (fun v => if v = maxList c then 0 else v)

/-- The body of `Feature._open_wavf`: read the waveform, convert to float
(identity here), apply `low_cut_filter(x, fs, cutoff=70)`, and return
`(fs, filtered samples, stem of the file name)`. -/
def openWavf (ext : Extern) (wavf : String) : Nat × Arr × String :=
  let p := ext.sfRead wavf
  (p.2, ext.lowCutFilter p.1 p.2 70, ext.stem wavf)

/-- The body of `Feature._analyze_world_features`.  Returns the updated
feature dict together with the analyzer-invocation event.  The dict
insertion order matches the source: `f0, spc, ap, uv, cf0, lf0, lcf0`, then
(unless `f0_only`) `mcep, npow`, then conditionally `cap, ccap, cap_uv`.
The stored `cap` is the in-place-mutated array whose per-band maxima were
zeroed; `cap_uv`/`ccap` are the per-band `convert_continuos_f0` outputs. -/
def analyzeWorldFeatures (ext : Extern) (conf : Conf) (sconf : SpkrConf)
    (fts : Feats) (x : Arr) (f0_only : Bool) : Feats × List Event :=
  let w := ext.worldAnalyze conf.fs conf.fftl conf.shiftms sconf.minf0 sconf.maxf0 x
  let f0 := w.1
  let spc := w.2.1
  let ap := w.2.2
  let c := ext.convertContinuosF0 f0
  let fts := dictSet fts "f0" (.a1 f0)
  let fts := dictSet fts "spc" (.a2 spc)
  let fts := dictSet fts "ap" (.a2 ap)
  let fts := dictSet fts "uv" (.a1 c.1)
  let fts := dictSet fts "cf0" (.a1 c.2)
  let fts := dictSet fts "lf0" (.a1 (f0.map (fun v => Real.log (v + EPS))))
  let fts := dictSet fts "lcf0" (.a1 (c.2.map Real.log))
  if f0_only then (fts, [Event.analyzerCall x])
  else
    let fts := dictSet fts "mcep" (.a2 (ext.mcepF x conf.mcep_dim conf.mcep_alpha))
    let fts := dictSet fts "npow" (.a1 (ext.npowF x))
    if conf.fftl ≠ 256 ∧ 16000 < conf.fs then
      let cols := (ext.codeapF x).transpose
      let zcols := cols.map zeroMaxCol
      let conv := zcols.map ext.convertContinuosF0
      let fts := dictSet fts "cap" (.a2 zcols.transpose)
      let fts := dictSet fts "ccap" (.a2 ((conv.map Prod.snd).transpose))
      let fts := dictSet fts "cap_uv" (.a2 ((conv.map Prod.fst).transpose))
      (fts, [Event.analyzerCall x])
    else (fts, [Event.analyzerCall x])

/-- The body of `Feature._synthesize_world_features`: synthesize from
`f0`, `mcep`, `ap`; store the clipped waveform under `x_anasyn`; write the
unclipped `anasyn` to `<flbl>_anasyn.wav` (the source passes `anasyn`, not
the clipped array, to `sf.write`). -/
def synthesizeWorldFeatures (ext : Extern) (conf : Conf) (h5dir : String)
    (fts : Feats) (flbl : String) : Except String (Feats × List Event) :=
  match dictGet fts "f0", dictGet fts "mcep", dictGet fts "ap" with
  | some (.a1 f0), some (.a2 mcep), some (.a2 ap) =>
    match ext.synthesisF conf.fs conf.fftl conf.shiftms f0 mcep ap conf.mcep_alpha with
    | .ok anasyn =>
      .ok (dictSet fts "x_anasyn" (.a1 (anasyn.map clip1)),
           [Event.writeWav (h5dir ++ "/" ++ flbl ++ "_anasyn.wav") anasyn])
    | .error e => .error e
  | _, _, _ => .error "KeyError"

/-- Feature key used for a window type in `_analyze_mlfb` and `_mlfb2wavf`:
`mlfb` for the hann window, `mlfb_<type>` otherwise. -/
def mlfbName (wt : String) : String :=
  if wt = "hann" then "mlfb" else "mlfb_" ++ wt

/-- One iteration of the `_analyze_mlfb` loop for window `w = (type, arr)`
over the raw samples `x` re-read from the wav file (sample rate `fs`).
Stores the mel filterbank; for the hann window additionally stores
`energy`, `energy_uv` and `cenergy` (reading `npow` from the dict —
a missing `npow` is a `KeyError`). -/
def mlfbStep (ext : Extern) (conf : Conf) (sconf : SpkrConf) (x : Arr) (fs : Nat)
    (fts : Feats) (w : String × Arr) : Except String Feats :=
  let spc := ext.stftMag conf.fftl conf.hop_size w.2 x
  let melB := ext.melBasisF fs conf.fftl conf.mlfb_dim
      (conf.fmin.getD 0) (conf.fmax.getD (fs / 2))
  let fts := dictSet fts (mlfbName w.1) (.a2 (mlfbTransform spc melB))
  if w.1 = "hann" then
    match dictGet fts "npow" with
    | some (.a1 npow) =>
      let energy := energyOf spc
      let euv := energyUv energy npow sconf.npow
      let fts := dictSet fts "energy" (.a1 energy)
      let fts := dictSet fts "energy_uv" (.a1 euv)
      .ok (dictSet fts "cenergy"
        (.a1 (ext.convertContinuosF0 (List.zipWith (· * ·) energy euv)).2))
    | _ => .error "KeyError: npow"
  else .ok fts

/-- The `_analyze_mlfb` loop over `self.windows` entries. -/
def mlfbGo (ext : Extern) (conf : Conf) (sconf : SpkrConf) (x : Arr) (fs : Nat) :
    List (String × Arr) → Feats → Except String Feats
  | [], fts => .ok fts
  | w :: rest, fts =>
    match mlfbStep ext conf sconf x fs fts w with
    | .ok f' => mlfbGo ext conf sconf x fs rest f'
    | .error e => .error e

/-- The body of `Feature._analyze_mlfb`.  It re-reads the waveform from the
file with `sf.read(str(wavf))` — the raw samples, not the low-cut-filtered
ones returned by `_open_wavf` — and iterates over the window table. -/
def analyzeMlfb (ext : Extern) (conf : Conf) (sconf : SpkrConf)
    (windows : List (String × Arr)) (fts : Feats) (wavf : String) :
    Except String Feats :=
  let p := ext.sfRead wavf
  mlfbGo ext conf sconf p.1 p.2 windows fts

/-- The `_mlfb2wavf` loop over `self.conf["window_types"]`: Griffin-Lim
reconstruction of each stored mel filterbank to `<flbl>_<name>_gl.wav`.
A missing feature key is a `KeyError`; a failure of the external
reconstruction propagates. -/
def glGo (ext : Extern) (h5dir flbl : String) (fts : Feats) :
    List String → List Event → Except String (List Event)
  | [], evs => .ok evs
  | wt :: rest, evs =>
    match dictGet fts (mlfbName wt) with
    | some v =>
      match ext.mlfb2wavfF v (h5dir ++ "/" ++ flbl ++ "_" ++ mlfbName wt ++ "_gl.wav") with
      | .ok _ =>
        glGo ext h5dir flbl fts rest
          (evs ++ [Event.writeGl (h5dir ++ "/" ++ flbl ++ "_" ++ mlfbName wt ++ "_gl.wav")])
      | .error e => .error e
    | none => .error "KeyError"

/-- The body of `Feature._mlfb2wavf`. -/
def runMlfb2wavf (ext : Extern) (conf : Conf) (h5dir : String) (fts : Feats)
    (flbl : String) : Except String (List Event) :=
  glGo ext h5dir flbl fts conf.window_types []

/-- The body of `Feature.analyze`.  `_open_wavf` always runs (and asserts
the sample rate matches the configuration); if the target container
`<flbl>.h5` already exists the call only logs and returns, otherwise the
full pipeline runs and `_save_hdf5` writes the accumulated dict.  An
uncaught exception anywhere aborts the call (the source has no handlers). -/
def analyze (ext : Extern) (conf : Conf) (sconf : SpkrConf) (h5dir : String)
    (windows : List (String × Arr)) (h5Exists : String → Bool)
    (fts : Feats) (wavf : String) (synth_flag : Bool) :
    Except String (Feats × List Event) :=
  let q := openWavf ext wavf
  if q.1 ≠ conf.fs then .error "AssertionError: fs"
  else
    let h5f := h5dir ++ "/" ++ q.2.2 ++ ".h5"
    if h5Exists h5f then .ok (fts, [])
    else
      let r1 := analyzeWorldFeatures ext conf sconf fts q.2.1 false
      match (if synth_flag = true ∧ conf.fftl ≠ 256
             then synthesizeWorldFeatures ext conf h5dir r1.1 q.2.2
             else .ok (r1.1, [])) with
      | .error e => .error e
      | .ok r2 =>
        match analyzeMlfb ext conf sconf windows r2.1 wavf with
        | .error e => .error e
        | .ok f3 =>
          match (if synth_flag = true
                 then runMlfb2wavf ext conf h5dir f3 q.2.2
                 else .ok []) with
          | .error e => .error e
          | .ok ev3 =>
            .ok (f3, r1.2 ++ r2.2 ++ ev3 ++ [Event.writeH5 h5f f3])

/-- One step of the `_generate_window` loop body: the `if/elif` chain has no
`else`, so an unrecognized window type leaves the local variable `win` at
its value from the previous iteration (`prev`); on the first iteration that
local is unbound (`none`). -/
def genWin (ext : Extern) (fftl : Nat) (wt : String) (prev : Option Arr) : Option Arr :=
  if wt = "hann" then some (ext.hann fftl)
  else if wt = "hamming" then some (ext.hamming fftl)
  else if wt = "itu-g" then some (itug_729_window fftl)
  else prev

/-- The `_generate_window` loop over `window_types`, building the
`self.windows` dict; an unbound `win` is an `UnboundLocalError`. -/
def genWindowsGo (ext : Extern) (fftl : Nat) :
    List String → Option Arr → List (String × Arr) →
    Except String (List (String × Arr))
  | [], _, acc => .ok acc
  | wt :: rest, prev, acc =>
    match genWin ext fftl wt prev with
    | some w => genWindowsGo ext fftl rest (some w) (dictSet acc wt w)
    | none => .error "UnboundLocalError: win"

/-- The body of `Feature._generate_window`: asserts `"hann"` is among the
configured window types, then builds the window table. -/
def generateWindows (ext : Extern) (conf : Conf) :
    Except String (List (String × Arr)) :=
  if "hann" ∈ conf.window_types then genWindowsGo ext conf.fftl conf.window_types none []
  else .error "AssertionError: hann"

/-- The per-instance state of a `Feature` object: the two configs, the
output directory, the mutable feature dict and the window table. -/
structure FeatureInst where
  conf : Conf
  sconf : SpkrConf
  h5dir : String
  feats : Feats
  windows : List (String × Arr)

/-- `Feature.__init__(h5_dir, conf, spkr_conf)`: stores the configs, sets
`self.feats = {}` (once per instance) and generates the window table. -/
def featureInit (ext : Extern) (h5dir : String) (conf : Conf) (sconf : SpkrConf) :
    Except String FeatureInst :=
  match generateWindows ext conf with
  | .ok ws => .ok ⟨conf, sconf, h5dir, [], ws⟩
  | .error e => .error e

/-- A call `feature.analyze(wavf, synth_flag)` on an instance: threads the
instance's feature dict through `analyze`.  On an uncaught exception the
error propagates to the caller and nothing is written (the aborted call
never reaches `_save_hdf5`). -/
def FeatureInst.analyzeCall (inst : FeatureInst) (ext : Extern)
    (h5Exists : String → Bool) (wavf : String) (synth_flag : Bool) :
    Except String (FeatureInst × List Event) :=
  match analyze ext inst.conf inst.sconf inst.h5dir inst.windows h5Exists
      inst.feats wavf synth_flag with
  | .ok r => .ok ({ inst with feats := r.1 }, r.2)
  | .error e => .error e

/-! Concrete oracle instances and configurations used to exercise the
embedding on explicit inputs. -/

/-- A minimal oracle: every external call succeeds and returns empty
arrays; the stem of a path is the path itself; the filter is the
identity. -/
def extTriv : Extern where
  sfRead := fun _ => ([], 16000)
  stem := fun s => s
  lowCutFilter := fun x _ _ => x
  worldAnalyze := fun _ _ _ _ _ _ => ([], [], [])
  convertContinuosF0 := fun _ => ([], [])
  mcepF := fun _ _ _ => []
  npowF := fun _ => []
  codeapF := fun _ => []
  synthesisF := fun _ _ _ _ _ _ _ => .ok []
  stftMag := fun _ _ _ _ => []
  melBasisF := fun _ _ _ _ _ => []
  mlfb2wavfF := fun _ _ => .ok ()
  hann := fun _ => []
  hamming := fun _ => []

/-- A small but realistic global configuration: 16 kHz, 512-point FFT. -/
def confTriv : Conf :=
  ⟨16000, 512, 5, 80, 34, 0.455, 80, none, none, ["hann"]⟩

/-- A per-speaker configuration. -/
def sconfTriv : SpkrConf := ⟨70, 400, -20⟩

/-- Predicate for a file system on which no container exists yet. -/
def hExF : String → Bool := fun _ => false

/-- A freshly constructed instance (the value `featureInit` produces for
`extTriv`/`confTriv`). -/
def instT0 : FeatureInst := ⟨confTriv, sconfTriv, "d", [], [("hann", [])]⟩

/-- The feature dict written for a fresh instance, `extTriv` oracles and
`synth_flag = False` (13 keys, in insertion order). -/
def feats13 : Feats :=
  [("f0", .a1 []), ("spc", .a2 []), ("ap", .a2 []), ("uv", .a1 []),
   ("cf0", .a1 []), ("lf0", .a1 []), ("lcf0", .a1 []), ("mcep", .a2 []),
   ("npow", .a1 []), ("mlfb", .a2 []), ("energy", .a1 []),
   ("energy_uv", .a1 []), ("cenergy", .a1 [])]

/-- The feature dict after a call with `synth_flag = True` for the same
oracles: the same keys plus `x_anasyn` (inserted after `npow`). -/
def feats14 : Feats :=
  [("f0", .a1 []), ("spc", .a2 []), ("ap", .a2 []), ("uv", .a1 []),
   ("cf0", .a1 []), ("lf0", .a1 []), ("lcf0", .a1 []), ("mcep", .a2 []),
   ("npow", .a1 []), ("x_anasyn", .a1 []), ("mlfb", .a2 []),
   ("energy", .a1 []), ("energy_uv", .a1 []), ("cenergy", .a1 [])]

/-- Oracle whose synthesizer raises. -/
def extBoom : Extern :=
  { extTriv with synthesisF := fun _ _ _ _ _ _ _ => .error "boom" }

/-- A second failing-synthesizer oracle with a distinct error message. -/
def extBoom2 : Extern :=
  { extTriv with synthesisF := fun _ _ _ _ _ _ _ => .error "fail" }

/-- Oracle distinguishing raw from filtered samples: the file holds the
single sample `1`, the low-cut filter zeroes the signal, the magnitude
spectrum of a signal is the one-frame matrix holding the signal itself, and
the mel basis is a single all-pass filter. -/
def extRawVsFilt : Extern :=
  { extTriv with
    sfRead := fun _ => ([1], 16000)
    lowCutFilter := fun x _ _ => x.map (fun _ => 0)
    stftMag := fun _ _ _ x => [x]
    melBasisF := fun _ _ _ _ _ => [[1]] }

/-- Oracle whose synthesizer returns the out-of-range waveform `[2]`. -/
def extSynth2 : Extern :=
  { extTriv with synthesisF := fun _ _ _ _ _ _ _ => .ok [2] }

/-- A feature dict holding just the keys `_synthesize_world_features`
reads. -/
def featsS : Feats := [("f0", .a1 []), ("mcep", .a2 []), ("ap", .a2 [])]

/-- Oracle with distinguishable hann and hamming windows. -/
def extWin : Extern :=
  { extTriv with hann := fun _ => [1], hamming := fun _ => [2] }

/-- A configuration whose window-type list ends with the unrecognized name
`blackman`. -/
def confUnknownWin : Conf :=
  { confTriv with window_types := ["hann", "hamming", "blackman"] }

/-- The feature dict found in the container written by the SECOND
`analyze` call on one instance: first `a.wav` with `synth_flag = True`,
then `b.wav` with `synth_flag = False` (no container exists for either). -/
def secondRunWritten : Option Feats :=
  match FeatureInst.analyzeCall instT0 extTriv hExF "a.wav" true with
  | .ok r =>
    match FeatureInst.analyzeCall r.1 extTriv hExF "b.wav" false with
    | .ok r2 =>
      r2.2.foldr (fun ev acc =>
        match ev with
        | Event.writeH5 _ f => some f
        | _ => acc) none
    | .error _ => none
  | .error _ => none

/-! Helper lemmas about the dictionary operations. -/

theorem dictGet_dictSet {α : Type} (d : List (String × α)) (k' k : String) (v : α) :
    dictGet (dictSet d k' v) k = if k' = k then some v else dictGet d k := by
  induction d with
  | nil => simp [dictGet, dictSet]
  | cons a t ih =>
    obtain ⟨ka, va⟩ := a
    by_cases h1 : ka = k'
    · subst h1
      by_cases h2 : ka = k <;> simp [dictSet, dictGet, h2]
    · by_cases h2 : ka = k
      · subst h2
        have hne : ¬(k' = ka) := fun e => h1 e.symm
        simp [dictSet, dictGet, h1, hne]
      · simp [dictSet, dictGet, h1, h2, ih]

theorem dictGet_dictSet_isSome {α : Type} (d : List (String × α)) (k' k : String)
    (v : α) (h : (dictGet d k).isSome = true) :
    (dictGet (dictSet d k' v) k).isSome = true := by
  rw [dictGet_dictSet]
  by_cases hk : k' = k <;> simp [hk, h]

/-! Helper lemmas about the ITU-G.729 window. -/

theorem getD_map_range (n j : Nat) (f : Nat → ℝ) (h : j < n) :
    ((List.range n).map f).getD j 0 = f j := by
  simp [List.getD_eq_getElem?_getD, List.getElem?_map, List.getElem?_range h]

theorem itug_getD_cos (L i : Nat) (hi : i < L / 6) :
    (itug_729_window L).getD (L - L / 6 + i) 0 = cos_win (i : ℝ) (L : ℝ) := by
  have hlen : ((List.range (L - L / 6)).map
      (fun j => hamming_win ((L / 6 + j : ℕ) : ℝ) (L : ℝ))).length = L - L / 6 := by
    simp
  unfold itug_729_window
  rw [List.getD_append_right _ _ _ _ (by rw [hlen]; omega)]
  rw [hlen, Nat.add_sub_cancel_left]
  exact getD_map_range _ _ _ hi

theorem itug_getD_ham (L j : Nat) (hj : j < L - L / 6) :
    (itug_729_window L).getD j 0 = hamming_win ((L / 6 + j : ℕ) : ℝ) (L : ℝ) := by
  unfold itug_729_window
  rw [List.getD_append _ _ _ _ (by simpa using hj)]
  exact getD_map_range _ _ _ hj

theorem hamming_win_bound (x L : ℝ) : |hamming_win x L| ≤ 1 := by
  unfold hamming_win
  have h1 := Real.neg_one_le_cos (2 * Real.pi * (x - L / 6) / (5 * L / 3 - 1))
  have h2 := Real.cos_le_one (2 * Real.pi * (x - L / 6) / (5 * L / 3 - 1))
  rw [abs_le]
  constructor <;> nlinarith

theorem cos_win_bound (x L : ℝ) : |cos_win x L| ≤ 1 := by
  unfold cos_win
  exact Real.abs_cos_le_one _

/-- Claim C2, counterexample.  The claim states that for every `L ≥ 6` the
value at the LAST index `L-1` equals `cos(2π·0/(2L/3−1)) = 1.0`.  At
`L = 12` the last slot holds `cos_win 1 12 = cos(2π/7) ≠ 1` (the cosine
segment has `12 // 6 = 2` samples, so index 11 receives formula index 1,
not 0). -/
theorem itug_last_index_not_one : (itug_729_window 12).getD 11 0 ≠ 1 := by
  have h : (itug_729_window 12).getD 11 0 = cos_win ((1 : ℕ) : ℝ) ((12 : ℕ) : ℝ) := rfl
  rw [h]
  unfold cos_win
  have harg : 2 * Real.pi * ((1 : ℕ) : ℝ) / (2 * ((12 : ℕ) : ℝ) / 3 - 1) =
      2 * Real.pi / 7 := by
    push_cast
    norm_num
  rw [harg]
  have hpi := Real.pi_pos
  have hlt : Real.cos (2 * Real.pi / 7) < Real.cos 0 :=
    Real.cos_lt_cos_of_nonneg_of_le_pi le_rfl (by nlinarith) (by positivity)
  rw [Real.cos_zero] at hlt
  linarith

/-- Claim C2, amended.  For every `L ≥ 6` the ITU-G.729 window generator
returns an array of exactly length `L` whose entries are all finite (every
entry has absolute value at most 1), and the value `cos(2π·0/(2L/3−1)) = 1.0`
sits at index `L - L//6` — the first sample of the trailing cosine
segment — not at the last index `L-1` (those coincide only when
`L//6 = 1`, i.e. `6 ≤ L ≤ 11`). -/
theorem itug_window_shape (L : Nat) (h : 6 ≤ L) :
    (itug_729_window L).length = L ∧
    (∀ v ∈ itug_729_window L, |v| ≤ 1) ∧
    (itug_729_window L).getD (L - L / 6) 0 = 1 := by
  refine ⟨?_, ?_, ?_⟩
  · simp only [itug_729_window, List.length_append, List.length_map, List.length_range]
    omega
  · intro v hv
    rcases List.mem_append.1 hv with hm | hm
    · obtain ⟨j, hj, rfl⟩ := List.mem_map.1 hm
      exact hamming_win_bound _ _
    · obtain ⟨i, hi, rfl⟩ := List.mem_map.1 hm
      exact cos_win_bound _ _
  · have h0 : (0 : ℕ) < L / 6 := by omega
    have hc := itug_getD_cos L 0 h0
    rw [show L - L / 6 + 0 = L - L / 6 from by omega] at hc
    rw [hc]
    unfold cos_win
    simp

/-- Witness for the amended claim C2, at the concrete length 6. -/
theorem itug_window_shape_witness :
    6 ≤ 6 ∧ (itug_729_window 6).length = 6 ∧ (itug_729_window 6).getD 5 0 = 1 :=
  ⟨by norm_num, (itug_window_shape 6 (by norm_num)).1,
   (itug_window_shape 6 (by norm_num)).2.2⟩

/-- Claim C9.  For every `L ≥ 6` with `s = L // 6`: the last `s` entries
(positions `L-s .. L-1`) hold `cos(2πi/(2L/3−1))` for `i = 0..s-1`, and the
first `L-s` entries (positions `0 .. L-s-1`) hold
`0.54 − 0.46·cos(2π(i − L/6)/(5L/3−1))` for formula index `i = s..L-1`
(the original sample index, not the storage position). -/
theorem itug_segments (L : Nat) (h : 6 ≤ L) :
    (∀ i, i < L / 6 →
      (itug_729_window L).getD (L - L / 6 + i) 0 =
        Real.cos (2 * Real.pi * (i : ℝ) / (2 * (L : ℝ) / 3 - 1))) ∧
    (∀ j, j < L - L / 6 →
      (itug_729_window L).getD j 0 =
        0.54 - 0.46 * Real.cos (2 * Real.pi * (((L / 6 + j : ℕ) : ℝ) - (L : ℝ) / 6) /
          (5 * (L : ℝ) / 3 - 1))) :=
  ⟨fun i hi => itug_getD_cos L i hi, fun j hj => itug_getD_ham L j hj⟩

/-- Witness for claim C9, at the concrete length 6 (first cosine slot and
first hamming slot). -/
theorem itug_segments_witness :
    6 ≤ 6 ∧
    (itug_729_window 6).getD 5 0 =
      Real.cos (2 * Real.pi * ((0 : ℕ) : ℝ) / (2 * ((6 : ℕ) : ℝ) / 3 - 1)) ∧
    (itug_729_window 6).getD 0 0 =
      0.54 - 0.46 * Real.cos (2 * Real.pi * (((6 / 6 + 0 : ℕ) : ℝ) - ((6 : ℕ) : ℝ) / 6) /
        (5 * ((6 : ℕ) : ℝ) / 3 - 1)) :=
  ⟨by norm_num, (itug_segments 6 (by norm_num)).1 0 (by norm_num),
   (itug_segments 6 (by norm_num)).2 0 (by norm_num)⟩

/-- Claim C1.  When the target container `<label>.h5` already exists, an
`analyze` call performs no feature analysis and no write: the instance is
returned unchanged (the feature dict in particular) and the event trace is
empty — no analyzer invocation, no container write, no wav write. -/
theorem analyze_skip_existing (ext : Extern) (hEx : String → Bool)
    (inst : FeatureInst) (wavf : String) (sf : Bool)
    (hfs : (ext.sfRead wavf).2 = inst.conf.fs)
    (hex : hEx (inst.h5dir ++ "/" ++ ext.stem wavf ++ ".h5") = true) :
    inst.analyzeCall ext hEx wavf sf = .ok (inst, []) := by
  obtain ⟨c, sc, dir, fts, ws⟩ := inst
  simp only [FeatureInst.analyzeCall, analyze, openWavf] at *
  simp [hfs, hex]

/-- Witness for claim C1 at a concrete instance with an existing
container. -/
theorem analyze_skip_existing_witness :
    (extTriv.sfRead "a.wav").2 = instT0.conf.fs ∧
    (fun _ => true : String → Bool)
      (instT0.h5dir ++ "/" ++ extTriv.stem "a.wav" ++ ".h5") = true ∧
    instT0.analyzeCall extTriv (fun _ => true) "a.wav" false = .ok (instT0, []) :=
  ⟨rfl, rfl, analyze_skip_existing extTriv (fun _ => true) instT0 "a.wav" false rfl rfl⟩

/-! Lemmas for the mel-filterbank clamp. -/

theorem dotL_eq_zero (a : Arr) (b : Arr) (ha : ∀ v ∈ a, v = 0) : dotL a b = 0 := by
  induction a generalizing b with
  | nil => simp [dotL]
  | cons x xs ih =>
    cases b with
    | nil => simp [dotL]
    | cons y ys =>
      have hx : x = 0 := ha x (by simp)
      have hrest : ∀ v ∈ xs, v = 0 := fun v hv => ha v (by simp [hv])
      have hxs := ih ys hrest
      simp only [dotL, List.zipWith_cons_cons, List.sum_cons] at *
      rw [hx, hxs]
      ring

theorem logb_EPS : Real.logb 10 EPS = -10 := by
  have h : EPS = ((10 : ℝ) ^ (10 : ℕ))⁻¹ := by norm_num [EPS]
  rw [h, Real.logb_inv, Real.logb_pow, Real.logb_self_eq_one (by norm_num)]
  norm_num

/-- Claim C10.  Every mel-filterbank entry equals `log10(max(EPS, m))` with
`m` the corresponding mel-projected magnitude (`EPS = 1e-10`); therefore
every entry is at least `log10(EPS) = -10`, and a frame whose magnitude
spectrum is entirely zero produces the value `log10(EPS) = -10` in every
mel band — never minus infinity. -/
theorem mlfb_entries_clamped (spc melB : Mat) :
    mlfbTransform spc melB =
      spc.map (fun fr => melB.map (fun b => Real.logb 10 (max EPS (dotL fr b)))) ∧
    Real.logb 10 EPS = -10 ∧
    (∀ row ∈ mlfbTransform spc melB, ∀ v ∈ row, -10 ≤ v) ∧
    (∀ fr ∈ spc, (∀ a ∈ fr, a = 0) →
      ∀ v ∈ melB.map (fun b => Real.logb 10 (max EPS (dotL fr b))), v = -10) := by
  have hmap : mlfbTransform spc melB =
      spc.map (fun fr => melB.map (fun b => Real.logb 10 (max EPS (dotL fr b)))) := by
    simp [mlfbTransform, matMulT, List.map_map, Function.comp_def]
  refine ⟨hmap, logb_EPS, ?_, ?_⟩
  · intro row hrow v hv
    rw [hmap] at hrow
    obtain ⟨fr, hfr, rfl⟩ := List.mem_map.1 hrow
    obtain ⟨b, hb, rfl⟩ := List.mem_map.1 hv
    calc (-10 : ℝ) = Real.logb 10 EPS := logb_EPS.symm
      _ ≤ Real.logb 10 (max EPS (dotL fr b)) :=
        Real.logb_le_logb_of_le (by norm_num) (by norm_num [EPS]) (le_max_left _ _)
  · intro fr hfr hzero v hv
    obtain ⟨b, hb, rfl⟩ := List.mem_map.1 hv
    rw [dotL_eq_zero fr b hzero,
      max_eq_left (by norm_num [EPS] : (0 : ℝ) ≤ EPS), logb_EPS]

/-- Witness for claim C10: a one-sample all-zero frame with a single
all-pass mel filter yields exactly `-10`. -/
theorem mlfb_entries_clamped_witness :
    Real.logb 10 (max EPS (dotL [0] [1])) = -10 :=
  (mlfb_entries_clamped [[0]] [[1]]).2.2.2 [0] (by simp) (by simp)
    (Real.logb 10 (max EPS (dotL [0] [1]))) (by simp)

/-- Claim C8 (the code contradicts it).  With the window-type list
`["hann", "hamming", "blackman"]` the constructor's window generation does
NOT fail: the `if/elif` chain has no `else`, so the unrecognized name
`blackman` silently receives the window generated on the previous loop
iteration (here the hamming window `[2]`, not an error). -/
theorem unknown_window_silently_aliased :
    generateWindows extWin confUnknownWin =
      .ok [("hann", [1]), ("hamming", [2]), ("blackman", [2])] := rfl

/-! Lemmas about the pipeline stages: which keys each stage touches and
which events each stage emits. -/

theorem mlfbName_head (wt : String) : (mlfbName wt).data.head? = some 'm' := by
  unfold mlfbName
  split
  · rfl
  · rw [String.data_append]
    rfl

theorem mlfbName_ne (wt k : String) (hk : k.data.head? ≠ some 'm') :
    mlfbName wt ≠ k := by
  intro h
  exact hk (h ▸ mlfbName_head wt)

theorem worldFeats_events (ext : Extern) (conf : Conf) (sconf : SpkrConf)
    (fts : Feats) (x : Arr) (b : Bool) :
    (analyzeWorldFeatures ext conf sconf fts x b).2 = [Event.analyzerCall x] := by
  unfold analyzeWorldFeatures
  split_ifs <;> rfl

theorem worldFeats_gets (ext : Extern) (conf : Conf) (sconf : SpkrConf)
    (fts : Feats) (x : Arr) :
    dictGet (analyzeWorldFeatures ext conf sconf fts x false).1 "f0" =
      some (.a1 (ext.worldAnalyze conf.fs conf.fftl conf.shiftms
        sconf.minf0 sconf.maxf0 x).1) ∧
    dictGet (analyzeWorldFeatures ext conf sconf fts x false).1 "mcep" =
      some (.a2 (ext.mcepF x conf.mcep_dim conf.mcep_alpha)) ∧
    dictGet (analyzeWorldFeatures ext conf sconf fts x false).1 "ap" =
      some (.a2 (ext.worldAnalyze conf.fs conf.fftl conf.shiftms
        sconf.minf0 sconf.maxf0 x).2.2) ∧
    dictGet (analyzeWorldFeatures ext conf sconf fts x false).1 "npow" =
      some (.a1 (ext.npowF x)) := by
  by_cases hc : conf.fftl ≠ 256 ∧ 16000 < conf.fs <;>
    simp +decide [analyzeWorldFeatures, hc, dictGet_dictSet]

theorem worldFeats_cap_isSome (ext : Extern) (conf : Conf) (sconf : SpkrConf)
    (x : Arr) (k : String) (hk : k = "cap" ∨ k = "ccap" ∨ k = "cap_uv") :
    ((dictGet (analyzeWorldFeatures ext conf sconf [] x false).1 k).isSome = true ↔
      (conf.fftl ≠ 256 ∧ 16000 < conf.fs)) := by
  by_cases hc : conf.fftl ≠ 256 ∧ 16000 < conf.fs <;>
    rcases hk with rfl | rfl | rfl <;>
    simp +decide [analyzeWorldFeatures, hc, dictGet_dictSet]

theorem synth_ok_spec (ext : Extern) (conf : Conf) (dir : String) (fts : Feats)
    (flbl : String) (f : Feats) (evs : List Event)
    (h : synthesizeWorldFeatures ext conf dir fts flbl = .ok (f, evs)) :
    ∃ y, f = dictSet fts "x_anasyn" (.a1 (y.map clip1)) ∧
      evs = [Event.writeWav (dir ++ "/" ++ flbl ++ "_anasyn.wav") y] := by
  unfold synthesizeWorldFeatures at h
  split at h
  · split at h
    · rename_i anasyn _
      simp only [Except.ok.injEq, Prod.mk.injEq] at h
      exact ⟨anasyn, h.1.symm, h.2.symm⟩
    · cases h
  · cases h

theorem mlfbStep_preserves (ext : Extern) (conf : Conf) (sconf : SpkrConf)
    (x : Arr) (fs : Nat) (fts : Feats) (w : String × Arr) (f' : Feats) (k : String)
    (hk : k.data.head? ≠ some 'm') (hk2 : k ≠ "energy") (hk3 : k ≠ "energy_uv")
    (hk4 : k ≠ "cenergy")
    (h : mlfbStep ext conf sconf x fs fts w = .ok f') :
    dictGet f' k = dictGet fts k := by
  have hm : mlfbName w.1 ≠ k := mlfbName_ne _ _ hk
  unfold mlfbStep at h
  by_cases hw : w.1 = "hann"
  · rw [hw] at hm
    simp only [hw, if_true] at h
    split at h
    · rename_i npow _
      simp only [Except.ok.injEq] at h
      subst h
      simp [dictGet_dictSet, hm, Ne.symm hk2, Ne.symm hk3, Ne.symm hk4]
    · cases h
  · simp only [hw, if_false] at h
    simp only [Except.ok.injEq] at h
    subst h
    simp [dictGet_dictSet, hm]

theorem mlfbGo_preserves (ext : Extern) (conf : Conf) (sconf : SpkrConf)
    (x : Arr) (fs : Nat) (l : List (String × Arr)) :
    ∀ fts f' k, k.data.head? ≠ some 'm' → k ≠ "energy" → k ≠ "energy_uv" →
    k ≠ "cenergy" → mlfbGo ext conf sconf x fs l fts = .ok f' →
    dictGet f' k = dictGet fts k := by
  induction l with
  | nil =>
    intro fts f' k _ _ _ _ h
    cases h
    rfl
  | cons w rest ih =>
    intro fts f' k hk h2 h3 h4 h
    unfold mlfbGo at h
    cases hs : mlfbStep ext conf sconf x fs fts w with
    | error e => rw [hs] at h; cases h
    | ok fmid =>
      rw [hs] at h
      rw [ih fmid f' k hk h2 h3 h4 h]
      exact mlfbStep_preserves ext conf sconf x fs fts w fmid k hk h2 h3 h4 hs

theorem glGo_no_writeH5 (ext : Extern) (dir flbl : String) (fts : Feats)
    (l : List String) :
    ∀ evs r, glGo ext dir flbl fts l evs = .ok r →
    (∀ p F, Event.writeH5 p F ∉ evs) → ∀ p F, Event.writeH5 p F ∉ r := by
  induction l with
  | nil =>
    intro evs r h hnw
    cases h
    exact hnw
  | cons wt rest ih =>
    intro evs r h hnw
    unfold glGo at h
    cases hg : dictGet fts (mlfbName wt) with
    | none => simp only [hg] at h; cases h
    | some v =>
      simp only [hg] at h
      cases ho : ext.mlfb2wavfF v
          (dir ++ "/" ++ flbl ++ "_" ++ mlfbName wt ++ "_gl.wav") with
      | error e => simp only [ho] at h; cases h
      | ok u =>
        simp only [ho] at h
        refine ih _ r h ?_
        intro p F hmem
        rcases List.mem_append.1 hmem with hm | hm
        · exact hnw p F hm
        · simp at hm

theorem synth_error_on_worldfeats (ext : Extern) (conf : Conf) (sconf : SpkrConf)
    (dir : String) (fts : Feats) (x : Arr) (flbl e : String)
    (herr : ∀ a b c d f g h, ext.synthesisF a b c d f g h = .error e) :
    synthesizeWorldFeatures ext conf dir
      (analyzeWorldFeatures ext conf sconf fts x false).1 flbl = .error e := by
  obtain ⟨hf0, hmc, hap, hnp⟩ := worldFeats_gets ext conf sconf fts x
  unfold synthesizeWorldFeatures
  simp only [hf0, hmc, hap, herr]

/-- Claim C3, counterexample.  With a synthesizer oracle that raises, a
fresh instance, no existing container, `synth_flag = True` and a 512-point
FFT, the `analyze` call aborts with the synthesizer's error: the error is
not caught, the mel-filterbank analysis never runs and the container is
never written (no event at all is produced). -/
theorem synth_error_aborts_run :
    FeatureInst.analyzeCall instT0 extBoom hExF "a.wav" true = .error "boom" := rfl

/-- Claim C3, amended.  An error raised inside the diagnostic resynthesis
step propagates uncaught out of `analyze`: when the synthesizer raises `e`
(with `synth_flag` set, FFT length not 256, matching sample rate, and no
existing container), the whole call returns that error, so the primary
feature extraction for the utterance is aborted and the features are never
written to the container. -/
theorem synth_error_aborts (ext : Extern) (hEx : String → Bool)
    (inst : FeatureInst) (wavf e : String)
    (hfs : (ext.sfRead wavf).2 = inst.conf.fs)
    (hnex : hEx (inst.h5dir ++ "/" ++ ext.stem wavf ++ ".h5") = false)
    (hfftl : inst.conf.fftl ≠ 256)
    (herr : ∀ a b c d f g h, ext.synthesisF a b c d f g h = .error e) :
    inst.analyzeCall ext hEx wavf true = .error e := by
  obtain ⟨c, sc, dir, fts, ws⟩ := inst
  simp only at hfs hnex hfftl
  have hse := synth_error_on_worldfeats ext c sc dir fts
    (ext.lowCutFilter (ext.sfRead wavf).1 (ext.sfRead wavf).2 70)
    (ext.stem wavf) e herr
  rw [hfs] at hse
  simp only [FeatureInst.analyzeCall, analyze, openWavf]
  simp [hfs, hnex, hfftl, hse]

/-- Witness for the amended claim C3 at a concrete failing oracle. -/
theorem synth_error_aborts_witness :
    FeatureInst.analyzeCall instT0 extBoom2 hExF "b.wav" true = .error "fail" :=
  synth_error_aborts extBoom2 hExF instT0 "b.wav" "fail" rfl rfl (by decide)
    (fun _ _ _ _ _ _ _ => rfl)

/-- Claim C4, counterexample.  With an oracle whose low-cut filter zeroes
the signal, the `mlfb` value stored by `analyze` is the one computed from
the RAW samples re-read from the file (value `log10(1) = 0`), and it
differs from the value the filtered samples would give
(`log10(EPS) = -10`): the mel-filterbank stage does not operate on the
filtered sample sequence. -/
theorem mlfb_ignores_lowcut :
    (match analyze extRawVsFilt confTriv sconfTriv "d" [("hann", [1])] hExF []
        "a.wav" false with
      | .ok r => dictGet r.1 "mlfb"
      | .error _ => none) =
      some (.a2 (mlfbMat extRawVsFilt confTriv 16000 [1] [1])) ∧
    mlfbMat extRawVsFilt confTriv 16000 [1] [1] ≠
      mlfbMat extRawVsFilt confTriv 16000 [1]
        (extRawVsFilt.lowCutFilter [1] 16000 70) := by
  constructor
  · rfl
  · intro h
    have h1 : mlfbMat extRawVsFilt confTriv 16000 [1] [1] =
        [[Real.logb 10 (max EPS (dotL [1] [1]))]] := rfl
    have h2 : mlfbMat extRawVsFilt confTriv 16000 [1]
        (extRawVsFilt.lowCutFilter [1] 16000 70) =
        [[Real.logb 10 (max EPS (dotL [0] [1]))]] := rfl
    rw [h1, h2] at h
    simp only [List.cons.injEq, and_true] at h
    have d1 : dotL [1] [1] = 1 := by simp [dotL]
    have d0 : dotL [0] [1] = 0 := by simp [dotL]
    rw [d1, d0, max_eq_right (by norm_num [EPS] : EPS ≤ (1 : ℝ)),
      max_eq_left (by norm_num [EPS] : (0 : ℝ) ≤ EPS), Real.logb_one,
      logb_EPS] at h
    norm_num at h

/-- Claim C4, amended.  The 70 Hz low-cut filter is applied to the samples
handed to the WORLD analysis stage (the analyzer is invoked on the
filtered sequence), but the mel-filterbank stage re-reads the raw waveform
from the file: the stored `mlfb` is computed from the unfiltered samples
`(ext.sfRead wavf).1`. -/
theorem mlfb_from_raw_waveform (ext : Extern) (hEx : String → Bool)
    (inst : FeatureInst) (wavf : String) (w : Arr) (inst' : FeatureInst)
    (evs : List Event)
    (hfs : (ext.sfRead wavf).2 = inst.conf.fs)
    (hnex : hEx (inst.h5dir ++ "/" ++ ext.stem wavf ++ ".h5") = false)
    (hwin : inst.windows = [("hann", w)])
    (hok : inst.analyzeCall ext hEx wavf false = .ok (inst', evs)) :
    Event.analyzerCall
      (ext.lowCutFilter (ext.sfRead wavf).1 (ext.sfRead wavf).2 70) ∈ evs ∧
    dictGet inst'.feats "mlfb" =
      some (.a2 (mlfbMat ext inst.conf (ext.sfRead wavf).2 w
        (ext.sfRead wavf).1)) := by
  obtain ⟨c, sc, dir, fts, ws⟩ := inst
  simp only at hfs hnex hwin ⊢
  subst hwin
  have hnp := (worldFeats_gets ext c sc fts
    (ext.lowCutFilter (ext.sfRead wavf).1 c.fs 70)).2.2.2
  simp only [FeatureInst.analyzeCall, analyze, openWavf] at hok
  rw [hfs] at hok ⊢
  simp [hnex, analyzeMlfb, mlfbGo, mlfbStep, mlfbName, dictGet_dictSet,
    hnp, mlfbMat] at hok
  obtain ⟨hinst, hevs⟩ := hok
  subst hinst
  subst hevs
  constructor
  · rw [worldFeats_events]
    simp
  · simp [dictGet_dictSet, mlfbMat]
    rw [hfs]

/-- Witness for the amended claim C4 at a concrete run. -/
theorem mlfb_from_raw_waveform_witness :
    Event.analyzerCall [] ∈
      [Event.analyzerCall [], Event.writeH5 "d/a.wav.h5" feats13] ∧
    dictGet feats13 "mlfb" = some (.a2 (mlfbMat extTriv confTriv 16000 [] [])) :=
  mlfb_from_raw_waveform extTriv hExF instT0 "a.wav" []
    { instT0 with feats := feats13 }
    [Event.analyzerCall [], Event.writeH5 "d/a.wav.h5" feats13]
    rfl rfl rfl rfl

theorem synth_ok_on_worldfeats (ext : Extern) (conf : Conf) (sconf : SpkrConf)
    (dir : String) (fts : Feats) (x : Arr) (flbl : String) (y : Arr)
    (hsyn : ∀ a b c d f g h, ext.synthesisF a b c d f g h = .ok y) :
    synthesizeWorldFeatures ext conf dir
      (analyzeWorldFeatures ext conf sconf fts x false).1 flbl =
      .ok (dictSet (analyzeWorldFeatures ext conf sconf fts x false).1
             "x_anasyn" (.a1 (y.map clip1)),
           [Event.writeWav (dir ++ "/" ++ flbl ++ "_anasyn.wav") y]) := by
  obtain ⟨hf0, hmc, hap, _⟩ := worldFeats_gets ext conf sconf fts x
  unfold synthesizeWorldFeatures
  simp only [hf0, hmc, hap, hsyn]

/-- Claim C5, counterexample.  With a synthesizer returning the
out-of-range waveform `[2]`, the resynthesizer stores the clipped `[1]`
under `x_anasyn` but the wav file receives the UNCLIPPED `[2]`: the
waveform written to `<label>_anasyn.wav` is not the clipped result. -/
theorem anasyn_unclipped_written :
    synthesizeWorldFeatures extSynth2 confTriv "d" featsS "utt" =
      .ok (dictSet featsS "x_anasyn" (.a1 ([2].map clip1)),
           [Event.writeWav "d/utt_anasyn.wav" [2]]) ∧
    [(2 : ℝ)].map clip1 = [1] ∧ ([(2 : ℝ)] : Arr) ≠ [1] := by
  refine ⟨rfl, ?_, ?_⟩
  · norm_num [clip1]
  · intro h
    simp only [List.cons.injEq, and_true] at h
    norm_num at h

/-- Claim C5, amended.  When the synthesis flag is set and the FFT length
is not 256, the resynthesizer reconstructs a waveform `y`, stores the
result clipped to `[-1, 1]` in the feature set under `x_anasyn` (and hence
in the container), but the waveform written to `<label>_anasyn.wav` is the
UNCLIPPED synthesizer output `y`. -/
theorem anasyn_clip_semantics (ext : Extern) (hEx : String → Bool)
    (inst : FeatureInst) (wavf : String) (y : Arr) (inst' : FeatureInst)
    (evs : List Event)
    (hfs : (ext.sfRead wavf).2 = inst.conf.fs)
    (hnex : hEx (inst.h5dir ++ "/" ++ ext.stem wavf ++ ".h5") = false)
    (hfftl : inst.conf.fftl ≠ 256)
    (hsyn : ∀ a b c d f g h, ext.synthesisF a b c d f g h = .ok y)
    (hok : inst.analyzeCall ext hEx wavf true = .ok (inst', evs)) :
    Event.writeWav (inst.h5dir ++ "/" ++ ext.stem wavf ++ "_anasyn.wav") y ∈ evs ∧
    dictGet inst'.feats "x_anasyn" = some (.a1 (y.map clip1)) := by
  obtain ⟨c, sc, dir, fts, ws⟩ := inst
  simp only at hfs hnex hfftl ⊢
  have hso := synth_ok_on_worldfeats ext c sc dir fts
    (ext.lowCutFilter (ext.sfRead wavf).1 c.fs 70) (ext.stem wavf) y hsyn
  simp only [FeatureInst.analyzeCall, analyze, openWavf] at hok
  rw [hfs] at hok
  simp [hso, hfftl, hnex] at hok
  cases hml : analyzeMlfb ext c sc ws
      (dictSet (analyzeWorldFeatures ext c sc fts
        (ext.lowCutFilter (ext.sfRead wavf).1 c.fs 70) false).1
        "x_anasyn" (.a1 (y.map clip1))) wavf with
  | error e => simp only [hml] at hok; cases hok
  | ok f3 =>
    simp only [hml] at hok
    cases hgl : runMlfb2wavf ext c dir f3 (ext.stem wavf) with
    | error e => simp only [hgl] at hok; cases hok
    | ok ev3 =>
      simp only [hgl, Except.ok.injEq, Prod.mk.injEq] at hok
      obtain ⟨hinst, hevs⟩ := hok
      subst hinst
      subst hevs
      constructor
      · rw [worldFeats_events]
        simp
      · simp only [analyzeMlfb] at hml
        have hp := mlfbGo_preserves ext c sc (ext.sfRead wavf).1
          (ext.sfRead wavf).2 ws _ f3 "x_anasyn" (by decide) (by decide)
          (by decide) (by decide) hml
        rw [hp]
        simp [dictGet_dictSet]

/-- Witness for the amended claim C5 at a concrete run. -/
theorem anasyn_clip_semantics_witness :
    Event.writeWav "d/a.wav_anasyn.wav" [] ∈
      [Event.analyzerCall [], Event.writeWav "d/a.wav_anasyn.wav" [],
       Event.writeGl "d/a.wav_mlfb_gl.wav", Event.writeH5 "d/a.wav.h5" feats14] ∧
    dictGet feats14 "x_anasyn" = some (.a1 []) :=
  anasyn_clip_semantics extTriv hExF instT0 "a.wav" []
    { instT0 with feats := feats14 }
    [Event.analyzerCall [], Event.writeWav "d/a.wav_anasyn.wav" [],
     Event.writeGl "d/a.wav_mlfb_gl.wav", Event.writeH5 "d/a.wav.h5" feats14]
    rfl rfl (by decide) (fun _ _ _ _ _ _ _ => rfl) rfl

/-! Key persistence: no pipeline stage ever removes a key from the feature
dict. -/

theorem worldFeats_keeps (ext : Extern) (conf : Conf) (sconf : SpkrConf)
    (fts : Feats) (x : Arr) (b : Bool) (k : String)
    (h : (dictGet fts k).isSome = true) :
    (dictGet (analyzeWorldFeatures ext conf sconf fts x b).1 k).isSome = true := by
  cases b with
  | true =>
    simp only [analyzeWorldFeatures, eq_self_iff_true, ite_true]
    repeat (first | exact h | apply dictGet_dictSet_isSome)
  | false =>
    simp only [analyzeWorldFeatures, Bool.false_eq_true, ite_false]
    by_cases hc : conf.fftl ≠ 256 ∧ 16000 < conf.fs
    · rw [if_pos hc]
      repeat (first | exact h | apply dictGet_dictSet_isSome)
    · rw [if_neg hc]
      repeat (first | exact h | apply dictGet_dictSet_isSome)

theorem synth_keeps (ext : Extern) (conf : Conf) (dir : String) (fts : Feats)
    (flbl : String) (f : Feats) (evs : List Event) (k : String)
    (hok : synthesizeWorldFeatures ext conf dir fts flbl = .ok (f, evs))
    (h : (dictGet fts k).isSome = true) :
    (dictGet f k).isSome = true := by
  obtain ⟨y, rfl, -⟩ := synth_ok_spec ext conf dir fts flbl f evs hok
  exact dictGet_dictSet_isSome _ _ _ _ h

theorem mlfbStep_keeps (ext : Extern) (conf : Conf) (sconf : SpkrConf)
    (x : Arr) (fs : Nat) (fts : Feats) (w : String × Arr) (f' : Feats) (k : String)
    (hok : mlfbStep ext conf sconf x fs fts w = .ok f')
    (h : (dictGet fts k).isSome = true) :
    (dictGet f' k).isSome = true := by
  unfold mlfbStep at hok
  by_cases hw : w.1 = "hann"
  · simp only [hw, if_true] at hok
    split at hok
    · simp only [Except.ok.injEq] at hok
      subst hok
      repeat (first | exact h | apply dictGet_dictSet_isSome)
    · cases hok
  · simp only [hw, if_false] at hok
    simp only [Except.ok.injEq] at hok
    subst hok
    exact dictGet_dictSet_isSome _ _ _ _ h

theorem mlfbGo_keeps (ext : Extern) (conf : Conf) (sconf : SpkrConf)
    (x : Arr) (fs : Nat) (l : List (String × Arr)) :
    ∀ fts f' k, mlfbGo ext conf sconf x fs l fts = .ok f' →
    (dictGet fts k).isSome = true → (dictGet f' k).isSome = true := by
  induction l with
  | nil =>
    intro fts f' k hok h
    cases hok
    exact h
  | cons w rest ih =>
    intro fts f' k hok h
    unfold mlfbGo at hok
    cases hs : mlfbStep ext conf sconf x fs fts w with
    | error e => rw [hs] at hok; cases hok
    | ok fmid =>
      rw [hs] at hok
      exact ih fmid f' k hok (mlfbStep_keeps ext conf sconf x fs fts w fmid k hs h)

theorem analyze_keeps (ext : Extern) (conf : Conf) (sconf : SpkrConf)
    (dir : String) (ws : List (String × Arr)) (hEx : String → Bool)
    (fts : Feats) (wavf : String) (sf : Bool) (f' : Feats) (evs : List Event)
    (k : String)
    (hok : analyze ext conf sconf dir ws hEx fts wavf sf = .ok (f', evs))
    (h : (dictGet fts k).isSome = true) :
    (dictGet f' k).isSome = true := by
  simp only [analyze, openWavf] at hok
  split at hok
  · cases hok
  · split at hok
    · simp only [Except.ok.injEq, Prod.mk.injEq] at hok
      obtain ⟨h1, -⟩ := hok
      subst h1
      exact h
    · split at hok
      · cases hok
      · rename_i r2 hr2
        split at hok
        · cases hok
        · rename_i f3 hf3
          split at hok
          · cases hok
          · rename_i ev3 hev3
            simp only [Except.ok.injEq, Prod.mk.injEq] at hok
            obtain ⟨h1, -⟩ := hok
            subst h1
            have hkeep1 := worldFeats_keeps ext conf sconf fts
              (ext.lowCutFilter (ext.sfRead wavf).1 (ext.sfRead wavf).2 70)
              false k h
            have hkeep2 : (dictGet r2.1 k).isSome = true := by
              by_cases hcond : sf = true ∧ conf.fftl ≠ 256
              · rw [if_pos hcond] at hr2
                exact synth_keeps ext conf dir _ _ r2.1 r2.2 k hr2 hkeep1
              · rw [if_neg hcond] at hr2
                simp only [Except.ok.injEq] at hr2
                subst hr2
                exact hkeep1
            simp only [analyzeMlfb] at hf3
            exact mlfbGo_keeps ext conf sconf _ _ ws r2.1 f3 k hf3 hkeep2

/-- Claim C6, counterexample.  One instance, two `analyze` calls: first
`a.wav` with `synth_flag = True` (which stores `x_anasyn`), then `b.wav`
with `synth_flag = False`.  The container written for `b.wav` still holds
the `x_anasyn` entry produced while processing `a.wav`: the feature dict is
NOT created empty per utterance, so a stale array from a different
utterance is written. -/
theorem stale_anasyn_in_later_container :
    (secondRunWritten.bind (fun f => dictGet f "x_anasyn")) = some (.a1 []) := rfl

/-- Claim C6, amended.  `self.feats` is created empty once per `Feature`
INSTANCE (in the constructor), not once per utterance; an `analyze` call
never removes keys, so every key present before a successful call is still
present afterwards — which is how a stale `x_anasyn` from an earlier
utterance ends up in a later utterance's container. -/
theorem feats_lifecycle (ext : Extern) (dir : String) (conf : Conf)
    (sconf : SpkrConf) (inst0 : FeatureInst)
    (hinit : featureInit ext dir conf sconf = .ok inst0) :
    inst0.feats = [] ∧
    ∀ (inst : FeatureInst) (ext' : Extern) (hEx : String → Bool) (wavf : String)
      (sf : Bool) (inst' : FeatureInst) (evs : List Event) (k : String),
      inst.analyzeCall ext' hEx wavf sf = .ok (inst', evs) →
      (dictGet inst.feats k).isSome = true →
      (dictGet inst'.feats k).isSome = true := by
  constructor
  · unfold featureInit at hinit
    split at hinit
    · simp only [Except.ok.injEq] at hinit
      subst hinit
      rfl
    · cases hinit
  · intro inst ext' hEx wavf sf inst' evs k hok h
    unfold FeatureInst.analyzeCall at hok
    split at hok
    · rename_i r hr
      simp only [Except.ok.injEq, Prod.mk.injEq] at hok
      obtain ⟨h1, -⟩ := hok
      subst h1
      exact analyze_keeps ext' inst.conf inst.sconf inst.h5dir inst.windows hEx
        inst.feats wavf sf r.1 r.2 k hr h
    · cases hok

/-- Witness for the amended claim C6: a concrete construction yields an
empty feature dict. -/
theorem feats_lifecycle_witness :
    featureInit extTriv "d" confTriv sconfTriv = .ok instT0 ∧ instT0.feats = [] :=
  ⟨rfl, (feats_lifecycle extTriv "d" confTriv sconfTriv instT0 rfl).1⟩

/-- Claim C7.  For a pipeline run starting from an empty feature dict, the
container written by `analyze` contains the key `cap` — and likewise
`ccap` and `cap_uv` — if and only if the configured FFT length is not 256
and the configured sample rate is strictly greater than 16000. -/
theorem cap_keys_iff (ext : Extern) (conf : Conf) (sconf : SpkrConf)
    (dir : String) (ws : List (String × Arr)) (hEx : String → Bool)
    (wavf : String) (sf : Bool) (feats' : Feats) (evs : List Event)
    (p : String) (F : Feats)
    (hok : analyze ext conf sconf dir ws hEx [] wavf sf = .ok (feats', evs))
    (hwr : Event.writeH5 p F ∈ evs) :
    ((dictGet F "cap").isSome = true ↔ (conf.fftl ≠ 256 ∧ 16000 < conf.fs)) ∧
    ((dictGet F "ccap").isSome = true ↔ (conf.fftl ≠ 256 ∧ 16000 < conf.fs)) ∧
    ((dictGet F "cap_uv").isSome = true ↔
      (conf.fftl ≠ 256 ∧ 16000 < conf.fs)) := by
  simp only [analyze, openWavf] at hok
  split at hok
  · cases hok
  · split at hok
    · simp only [Except.ok.injEq, Prod.mk.injEq] at hok
      obtain ⟨-, h2⟩ := hok
      subst h2
      simp at hwr
    · split at hok
      · cases hok
      · rename_i r2 hr2
        split at hok
        · cases hok
        · rename_i f3 hf3
          split at hok
          · cases hok
          · rename_i ev3 hev3
            simp only [Except.ok.injEq, Prod.mk.injEq] at hok
            obtain ⟨-, hev⟩ := hok
            subst hev
            rw [worldFeats_events] at hwr
            have hr2e : ∀ q G, Event.writeH5 q G ∉ r2.2 := by
              intro q G
              by_cases hcond : sf = true ∧ conf.fftl ≠ 256
              · rw [if_pos hcond] at hr2
                obtain ⟨y, -, hev2⟩ := synth_ok_spec _ _ _ _ _ _ _ hr2
                simp [hev2]
              · rw [if_neg hcond] at hr2
                simp only [Except.ok.injEq] at hr2
                subst hr2
                simp
            have hev3e : ∀ q G, Event.writeH5 q G ∉ ev3 := by
              by_cases hsf : sf = true
              · rw [if_pos hsf] at hev3
                exact glGo_no_writeH5 ext dir _ f3 conf.window_types [] ev3 hev3
                  (by simp)
              · rw [if_neg hsf] at hev3
                simp only [Except.ok.injEq] at hev3
                subst hev3
                simp
            simp only [List.mem_append, List.mem_cons, List.not_mem_nil,
              or_false] at hwr
            rcases hwr with ((h | h) | h) | h
            · cases h
            · exact absurd h (hr2e p F)
            · exact absurd h (hev3e p F)
            · injection h with hp hF
              subst hF
              have hstep : ∀ k, k = "cap" ∨ k = "ccap" ∨ k = "cap_uv" →
                  ((dictGet F k).isSome = true ↔
                    (conf.fftl ≠ 256 ∧ 16000 < conf.fs)) := by
                intro k hk
                have hknm : k.data.head? ≠ some 'm' := by
                  rcases hk with rfl | rfl | rfl <;> decide
                have hke : k ≠ "energy" := by
                  rcases hk with rfl | rfl | rfl <;> decide
                have hke2 : k ≠ "energy_uv" := by
                  rcases hk with rfl | rfl | rfl <;> decide
                have hke3 : k ≠ "cenergy" := by
                  rcases hk with rfl | rfl | rfl <;> decide
                simp only [analyzeMlfb] at hf3
                rw [mlfbGo_preserves ext conf sconf _ _ ws r2.1 F k hknm hke
                  hke2 hke3 hf3]
                have hr21 : dictGet r2.1 k =
                    dictGet (analyzeWorldFeatures ext conf sconf []
                      (ext.lowCutFilter (ext.sfRead wavf).1 (ext.sfRead wavf).2 70)
                      false).1 k := by
                  by_cases hcond : sf = true ∧ conf.fftl ≠ 256
                  · rw [if_pos hcond] at hr2
                    obtain ⟨y, hfeq, -⟩ := synth_ok_spec _ _ _ _ _ _ _ hr2
                    rw [hfeq, dictGet_dictSet]
                    have hxk : ¬("x_anasyn" = k) := by
                      rcases hk with rfl | rfl | rfl <;> decide
                    simp [hxk]
                  · rw [if_neg hcond] at hr2
                    simp only [Except.ok.injEq] at hr2
                    subst hr2
                    rfl
                rw [hr21]
                exact worldFeats_cap_isSome ext conf sconf _ k hk
              exact ⟨hstep "cap" (Or.inl rfl), hstep "ccap" (Or.inr (Or.inl rfl)),
                hstep "cap_uv" (Or.inr (Or.inr rfl))⟩

/-- Witness for claim C7 at a concrete 16 kHz, 512-point-FFT run: none of
the three keys is present in the written container. -/
theorem cap_keys_iff_witness :
    ((dictGet feats13 "cap").isSome = true ↔
      (confTriv.fftl ≠ 256 ∧ 16000 < confTriv.fs)) ∧
    ((dictGet feats13 "ccap").isSome = true ↔
      (confTriv.fftl ≠ 256 ∧ 16000 < confTriv.fs)) ∧
    ((dictGet feats13 "cap_uv").isSome = true ↔
      (confTriv.fftl ≠ 256 ∧ 16000 < confTriv.fs)) :=
  cap_keys_iff extTriv confTriv sconfTriv "d" [("hann", [])] hExF "a.wav" false
    feats13 [Event.analyzerCall [], Event.writeH5 "d/a.wav.h5" feats13]
    "d/a.wav.h5" feats13 rfl (List.Mem.tail _ (List.Mem.head _))

end
